import Mathlib

/-!
Verification of the audio signal-processing core of the davidAI repository:
a shallow embedding of `internal/temporal/activities/audio_activities.go`
(`findNonSilentRange`, `TrimSilence`) and of
`internal/temporal/activities/feature_extraction.go` (`ComputeSNR`).

Modelling conventions:
* A Go slice `samples []int` is modelled as a function `samples : Nat → Int`
  together with an explicit length `n : Nat` (indexing is O(1), as in Go).
* Go `float64` threshold/duration arithmetic is modelled with exact
  rationals.  For every concrete parameter appearing in the claims
  (`0.01`, `0.1`, `sampleRate = 1000`) the derived integer quantities
  coincide with IEEE-754 double evaluation: the double product
  `0.01 * 32767` lies strictly between `327` and `328`, and
  `1000 * 0.1` evaluates to exactly `100.0`.
* The Go conversion `int(x)` from `float64` truncates toward zero; it is
  modelled by `goTrunc`.
* SHA-256 hashing and WAV encoding are external collaborators (the spec
  places the container codec and the digest out of scope), so
  `trimSilence` is parameterised by abstract `sha` and `encode`
  functions, and `computeSNR` by abstract `sqrtF`/`log10F` functions
  standing for `math.Sqrt`/`math.Log10`.
-/

set_option maxRecDepth 100000

namespace DavidAI

/-- Go `int(x)` conversion from a floating value: truncation toward zero. -/
def goTrunc (x : ℚ) : ℤ := if 0 ≤ x then x.floor else -((-x).floor)

/-- The manual absolute value used in all three scan loops
(`if absValue < 0 { absValue = -absValue }`). -/
def goAbs (x : ℤ) : ℤ := if x < 0 then -x else x

/-- `thresholdValue := int(threshold * maxSampleValue)` with
`maxSampleValue = 32767.0`; the identical conversion appears at
audio_activities.go:238-239 and feature_extraction.go:79-80. -/
def thresholdValue (tau : ℚ) : ℤ := goTrunc (tau * 32767)

/-- Modelled from the spec: the conversion `T = round(τ × 32767)` claimed
in spec sections 4.2 and 4.3, using rounding to nearest.  This follows
the claim text (not the source) and exists only to be compared with
`thresholdValue`. -/
def thresholdValueSpec (tau : ℚ) : ℤ := round (tau * 32767)

/-- One frame silence check: the inner `for ch` loop shared by the
forward scan (audio_activities.go:248-260), the backward scan
(audio_activities.go:272-284, whose extra `i+ch >= 0` guard is vacuous
for the nonnegative indices modelled here) and the segment-mode noise
scan (feature_extraction.go:106-116).  A frame starting at sample
offset `i` is silent iff every in-bounds channel sample has absolute
value at most the threshold. -/
def frameSilent (samples : ℕ → ℤ) (n channels : ℕ) (T : ℤ) (i : ℕ) : Bool :=
  (List.range channels).all fun ch =>
    if i + ch < n then decide (goAbs (samples (i + ch)) ≤ T) else true

/-- Forward scan of `findNonSilentRange` (audio_activities.go:244-265):
`for i := 0; i < len(samples)-channels; i += channels`, returning the
first non-silent frame offset and defaulting to `0`.  The loop visits
the offsets `t * channels` for `t * channels < n - channels`, i.e. for
`t < (n - 1) / channels`; the strict bound `i < len(samples)-channels`
excludes the final frame. -/
def startScan (samples : ℕ → ℤ) (n channels : ℕ) (T : ℤ) : ℕ :=
  (((List.range ((n - 1) / channels)).map (· * channels)).find? fun i =>
    ! frameSilent samples n channels T i).getD 0

/-- `minSilenceSamples := int(float64(sampleRate) * minSilenceDuration)`
(audio_activities.go:242). -/
def minSilenceSamplesOf (sampleRate : ℕ) (minSilenceDuration : ℚ) : ℤ :=
  goTrunc ((sampleRate : ℚ) * minSilenceDuration)

/-- Index sequence of the backward scan
`for i := len(samples) - channels; i >= startIdx; i -= channels`
(audio_activities.go:270), in visit order. -/
def downIdxs (n channels startIdx : ℕ) : List ℕ :=
  if startIdx + channels ≤ n then
    (List.range ((n - channels - startIdx) / channels + 1)).map
      fun t => n - channels - t * channels
  else []

/-- Body of the backward scan (audio_activities.go:267-295): stop with
`endIdx = i + channels` at the first non-silent frame, or as soon as
`silenceCount*channels >= minSilenceSamples`; if the loop runs out,
`endIdx` keeps its initial value `len(samples)`. -/
def endScanGo (samples : ℕ → ℤ) (n channels : ℕ) (T : ℤ)
    (minSilenceSamples : ℤ) : List ℕ → ℕ → ℕ
  | [], _ => n
  | i :: rest, silenceCount =>
    if ! frameSilent samples n channels T i then i + channels
    else if minSilenceSamples ≤ ((silenceCount + 1) * channels : ℕ) then
      i + channels
    else endScanGo samples n channels T minSilenceSamples rest (silenceCount + 1)

/-- The `startIdx` computed by `findNonSilentRange`. -/
def fnsrStart (samples : ℕ → ℤ) (n channels : ℕ) (threshold : ℚ) : ℕ :=
  startScan samples n channels (thresholdValue threshold)

/-- The `endIdx` computed by `findNonSilentRange`. -/
def fnsrEnd (samples : ℕ → ℤ) (n channels : ℕ) (threshold : ℚ)
    (sampleRate : ℕ) (minSilenceDuration : ℚ) : ℕ :=
  endScanGo samples n channels (thresholdValue threshold)
    (minSilenceSamplesOf sampleRate minSilenceDuration)
    (downIdxs n channels (fnsrStart samples n channels threshold)) 0

/-- `findNonSilentRange` (audio_activities.go:232-303).  Empty buffers
return `(0, 0)`; otherwise the forward and backward scans run and the
final guard replaces a degenerate `endIdx <= startIdx` result by the
full range `(0, len(samples))`. -/
def findNonSilentRange (samples : ℕ → ℤ) (n channels : ℕ) (threshold : ℚ)
    (sampleRate : ℕ) (minSilenceDuration : ℚ) : ℕ × ℕ :=
  if n = 0 then (0, 0)
  else
    let startIdx := fnsrStart samples n channels threshold
    let endIdx := fnsrEnd samples n channels threshold sampleRate minSilenceDuration
    if endIdx ≤ startIdx then (0, n) else (startIdx, endIdx)

/-- Result value of `TrimSilence` (types.go `TrimSilenceOutput`), with
the content hash kept as raw digest bytes of the abstract hasher. -/
structure TrimSilenceOutput where
  contentHash : List ℕ
  wasTrimmed : Bool
  noOp : Bool
  outputPath : String
  newAssetID : Option String

/-- Filesystem effects of one `TrimSilence` call: whether the trimmed
output file was written (`os.Create` + `encoder.Write`), and whether it
was afterwards deleted again (`os.Remove`). -/
structure TrimEffects where
  wroteOutputFile : Bool
  removedOutputFile : Bool

/-- The slice `samples[startIdx:endIdx]` (audio_activities.go:158). -/
def trimmedSlice (samples : ℕ → ℤ) (startIdx endIdx : ℕ) : List ℤ :=
  (List.range (endIdx - startIdx)).map fun t => samples (startIdx + t)

/-- `TrimSilence` (audio_activities.go:94-229) after decoding: parameter
defaulting (lines 96-103), the boundary search (line 135), the
full-range no-op branch (lines 138-155), and otherwise encoding of the
trimmed slice followed by the hash comparison (lines 187-226).  In the
hash-equal branch the source sets `NoOp = true`, removes the output
file and clears `OutputPath`, but leaves `WasTrimmed` at `true`. -/
def trimSilence (sha : List ℕ → List ℕ) (encode : List ℤ → List ℕ)
    (origBytes : List ℕ) (samples : ℕ → ℤ) (n channels sampleRate : ℕ)
    (silenceThreshold minSilenceDuration : ℚ) (outputPath newAssetID : String) :
    TrimSilenceOutput × TrimEffects :=
  let tau := if silenceThreshold = 0 then 1/100 else silenceThreshold
  let dur := if minSilenceDuration = 0 then 1/10 else minSilenceDuration
  let r := findNonSilentRange samples n channels tau sampleRate dur
  if r.1 = 0 ∧ r.2 = n then
    (⟨sha origBytes, false, true, "", none⟩, ⟨false, false⟩)
  else
    let contentHash := sha (encode (trimmedSlice samples r.1 r.2))
    let originalHash := sha origBytes
    if contentHash ≠ originalHash then
      (⟨contentHash, true, false, outputPath, some newAssetID⟩, ⟨true, false⟩)
    else
      (⟨contentHash, true, true, "", none⟩, ⟨true, true⟩)

/-- Result value of `ComputeSNR` (types.go `ComputeSNROutput`). -/
structure ComputeSNROutput where
  snr : ℚ
  signalPower : ℚ
  noisePower : ℚ
  signalRMS : ℚ
  noiseRMS : ℚ

/-- Noise-population selection of `ComputeSNR`
(feature_extraction.go:100-134).  Segment mode walks frames (loop bound
`i < len(samples)`, so the final partial frame is included) and collects
every in-bounds sample of each silent frame; sample mode collects every
sample with `|sample| <= thresholdValue`. -/
def noiseSamplesOf (samples : ℕ → ℤ) (n channels : ℕ) (T : ℤ)
    (useSilentSegments : Bool) : List ℤ :=
  if useSilentSegments then
    ((List.range ((n + channels - 1) / channels)).map (· * channels)).flatMap
      fun i =>
        if frameSilent samples n channels T i then
          ((List.range channels).filter fun ch => decide (i + ch < n)).map
            fun ch => samples (i + ch)
        else []
  else
    ((List.range n).filter fun i => decide (goAbs (samples i) ≤ T)).map
      fun i => samples i

/-- Sum of squared samples, as accumulated by the `float64` loops of
`ComputeSNR` (feature_extraction.go:83-87 and 140-144). -/
def sumSquares (l : List ℤ) : ℚ := l.foldl (fun acc s => acc + (s : ℚ) * (s : ℚ)) 0

/-- Pure computation of `ComputeSNR` after a successful decode with a
non-empty buffer (feature_extraction.go:78-177). -/
def computeSNRCore (sqrtF log10F : ℚ → ℚ) (samples : ℕ → ℤ) (n channels : ℕ)
    (noiseThreshold : ℚ) (useSilentSegments : Bool) : ComputeSNROutput :=
  let T := thresholdValue noiseThreshold
  let signalPower := if 0 < n then sumSquares ((List.range n).map samples) / n else 0
  let signalRMS := if 0 < signalPower then sqrtF signalPower else 0
  let noiseSamples := noiseSamplesOf samples n channels T useSilentSegments
  let noisePower :=
    if 0 < noiseSamples.length then sumSquares noiseSamples / noiseSamples.length
    else 1
  let noiseRMS :=
    if 0 < noiseSamples.length then (if 0 < noisePower then sqrtF noisePower else 0)
    else 1
  let snr :=
    if 0 < noisePower ∧ 0 < signalPower then
      (if 0 < signalPower / noisePower then 10 * log10F (signalPower / noisePower)
       else 0)
    else if 0 < signalPower then 120 else 0
  ⟨snr, signalPower, noisePower, signalRMS, noiseRMS⟩

/-- `ComputeSNR` (feature_extraction.go:21-214) after decoding: the
noise-threshold defaulting (lines 23-26), the explicit rejection of an
empty sample buffer with an error (lines 73-76, message abbreviated),
and the numeric computation. -/
def computeSNR (sqrtF log10F : ℚ → ℚ) (samples : ℕ → ℤ) (n channels : ℕ)
    (noiseThreshold : ℚ) (useSilentSegments : Bool) :
    Except String ComputeSNROutput :=
  let nu := if noiseThreshold = 0 then 1/100 else noiseThreshold
  if n = 0 then Except.error "audio file contains no samples"
  else Except.ok (computeSNRCore sqrtF log10F samples n channels nu useSilentSegments)

/-! ### Concrete buffers used by the claims -/

/-- The concrete buffer of claim C1: 1000 silent samples, 2000 samples
of amplitude 20000, 1000 silent samples (mono, so frames = samples). -/
def bufC1 : ℕ → ℤ := fun i => if i < 1000 then 0 else if i < 3000 then 20000 else 0

/-- Stereo buffer for claim C2: one loud frame (samples 0 and 1 equal to
20000) followed by 55 silent frames; 112 samples in total. -/
def bufC2 : ℕ → ℤ := fun i => if i < 2 then 20000 else 0

/-- Mono buffer `[0, 400]` for claim C6: the only non-silent frame is
the final frame. -/
def bufC6 : ℕ → ℤ := fun i => if i = 1 then 400 else 0

/-- Mono buffer `[0, 400, 0]` for the C6 witness. -/
def bufC6W : ℕ → ℤ := fun i => if i = 1 then 400 else 0

/-- Mono buffer `[0, 0, 20000, 0]` for claim C3: strict trimming range. -/
def bufC3 : ℕ → ℤ := fun i => if i = 2 then 20000 else 0

/-! ### Evaluation helpers for the rational constants -/

lemma goTrunc_eq_floor (x : ℚ) (h : 0 ≤ x) : goTrunc x = ⌊x⌋ := by
  rw [goTrunc, if_pos h, Rat.floor_def', Rat.floor_def]

lemma thresholdValue_eval : thresholdValue (1/100) = 327 := by
  rw [thresholdValue, goTrunc_eq_floor _ (by norm_num), Int.floor_eq_iff]
  norm_num

lemma minSilenceSamples_eval : minSilenceSamplesOf 1000 (1/10) = 100 := by
  rw [minSilenceSamplesOf, goTrunc_eq_floor _ (by norm_num), Int.floor_eq_iff]
  norm_num

lemma tau_default_ne : ¬((1/100 : ℚ) = 0) := by norm_num

lemma dur_default_ne : ¬((1/10 : ℚ) = 0) := by norm_num

/-! ### General facts about the scan loops -/

lemma lt_startIters_iff {n channels : ℕ} (hc : 0 < channels) (t : ℕ) :
    t < (n - 1) / channels ↔ t * channels + channels < n := by
  rw [Nat.lt_iff_add_one_le, Nat.le_div_iff_mul_le hc, Nat.succ_mul]
  omega

lemma find?_first {α : Type} (p : α → Bool) :
    ∀ (l : List α) (j : ℕ) (hj : j < l.length),
      (∀ u (hu : u < l.length), u < j → p (l.get ⟨u, hu⟩) = false) →
      p (l.get ⟨j, hj⟩) = true → l.find? p = some (l.get ⟨j, hj⟩) := by
  intro l
  induction l with
  | nil => intro j hj; exact absurd hj (Nat.not_lt_zero j)
  | cons a tl ih =>
    intro j hj hpre hpj
    cases j with
    | zero =>
      exact List.find?_cons_of_pos tl hpj
    | succ j' =>
      have ha : p a = false := hpre 0 (Nat.succ_pos _) (Nat.succ_pos _)
      rw [List.find?_cons_of_neg tl (by simp [ha])]
      exact ih j' (Nat.lt_of_succ_lt_succ hj)
        (fun u hu hu' => hpre (u + 1) (Nat.succ_lt_succ hu) (Nat.succ_lt_succ hu')) hpj

lemma startScan_cases (samples : ℕ → ℤ) (n channels : ℕ) (T : ℤ) (hc : 0 < channels) :
    startScan samples n channels T = 0 ∨
      ∃ t : ℕ, t * channels + channels < n ∧ startScan samples n channels T = t * channels := by
  unfold startScan
  cases hf : ((List.range ((n - 1) / channels)).map (· * channels)).find? fun i =>
      ! frameSilent samples n channels T i with
  | none => left; rfl
  | some a =>
    right
    have hmem := List.mem_of_find?_eq_some hf
    obtain ⟨t, ht, rfl⟩ := List.mem_map.1 hmem
    rw [List.mem_range, lt_startIters_iff hc] at ht
    exact ⟨t, ht, rfl⟩

lemma downIdxs_mem {n channels s i : ℕ} (hc : 0 < channels)
    (h : i ∈ downIdxs n channels s) : s ≤ i ∧ i + channels ≤ n := by
  unfold downIdxs at h
  split at h
  case isTrue hle =>
    obtain ⟨t, ht, rfl⟩ := List.mem_map.1 h
    rw [List.mem_range, Nat.lt_succ_iff, Nat.le_div_iff_mul_le hc] at ht
    omega
  case isFalse hle => exact absurd h (List.not_mem_nil i)

lemma downIdxs_dvd {n channels s i : ℕ} (hc : 0 < channels) (hdvd : channels ∣ n)
    (h : i ∈ downIdxs n channels s) : channels ∣ (i + channels) := by
  unfold downIdxs at h
  split at h
  case isTrue hle =>
    obtain ⟨t, ht, rfl⟩ := List.mem_map.1 h
    rw [List.mem_range, Nat.lt_succ_iff, Nat.le_div_iff_mul_le hc] at ht
    have he : n - channels - t * channels + channels = n - t * channels := by omega
    rw [he]
    exact Nat.dvd_sub' hdvd (dvd_mul_left channels t)
  case isFalse hle => exact absurd h (List.not_mem_nil i)

lemma endScanGo_shape (samples : ℕ → ℤ) (n channels : ℕ) (T mss : ℤ) :
    ∀ (idxs : List ℕ) (sc : ℕ),
      endScanGo samples n channels T mss idxs sc = n ∨
        ∃ i ∈ idxs, endScanGo samples n channels T mss idxs sc = i + channels := by
  intro idxs
  induction idxs with
  | nil => intro sc; left; rfl
  | cons i rest ih =>
    intro sc
    rw [endScanGo]
    split
    · right; exact ⟨i, List.mem_cons_self i rest, rfl⟩
    · split
      · right; exact ⟨i, List.mem_cons_self i rest, rfl⟩
      · rcases ih (sc + 1) with h | ⟨j, hj, he⟩
        · left; exact h
        · right; exact ⟨j, List.mem_cons_of_mem i hj, he⟩

/-! ### Claim C1 -/

/-- C1 (amended): on the buffer of 1000 silent frames, 2000 frames of
amplitude 20000 and 1000 silent frames, at `sampleRate = 1000`,
`channels = 1`, threshold `0.01` and `minSilenceDuration = 0.1`,
`findNonSilentRange` returns `startFrame = 1000` and `endFrame = 3901`:
the backward scan accumulates `minSilenceSamples = 100` consecutive
silent frames at index 3900 — long before reaching the non-silent frame
at index 2999 — and stops there with `endIdx = 3900 + 1`. -/
theorem c1_thm : findNonSilentRange bufC1 4000 1 (1/100) 1000 (1/10) = (1000, 3901) := by
  simp only [findNonSilentRange, fnsrStart, fnsrEnd, thresholdValue_eval,
    minSilenceSamples_eval]
  decide

/-- C1 counterexample: the claim as stated expects `(1000, 3000)`, but
`findNonSilentRange` on exactly that input does not return it — the
backward scan stops after 100 consecutive silent frames, not at the
exact non-silent boundary. -/
theorem c1_cex : ¬(findNonSilentRange bufC1 4000 1 (1/100) 1000 (1/10) = (1000, 3000)) := by
  simp only [findNonSilentRange, fnsrStart, fnsrEnd, thresholdValue_eval,
    minSilenceSamples_eval]
  decide

/-! ### Claim C5 -/

/-- C5 counterexample: the source converts the fractional threshold with
Go `int(...)`, which truncates toward zero; at the default threshold
`0.01` the code computes `int(0.01 * 32767) = 327`, while the claimed
round-to-nearest conversion gives `round(327.67) = 328`. -/
theorem c5_cex : thresholdValue (1/100) = 327 ∧ thresholdValueSpec (1/100) = 328 := by
  refine ⟨thresholdValue_eval, ?_⟩
  rw [thresholdValueSpec, round_eq, Int.floor_eq_iff]
  norm_num

/-- C5 (amended): both the silence-boundary finder and the SNR estimator
convert the fractional threshold with the shared `thresholdValue`
conversion, which truncates toward zero — for nonnegative thresholds
`T = ⌊τ × 32767⌋` — rather than rounding to nearest; at `τ = 0.01` the
threshold used is `327`. -/
theorem c5_thm :
    (∀ tau : ℚ, 0 ≤ tau → thresholdValue tau = ⌊tau * 32767⌋) ∧
      thresholdValue (1/100) = 327 := by
  refine ⟨fun tau h => ?_, thresholdValue_eval⟩
  rw [thresholdValue, goTrunc_eq_floor _ (mul_nonneg h (by norm_num))]

/-- Witness for the C5 theorem at the concrete threshold `1/2`. -/
theorem c5_w : thresholdValue (1/2) = ⌊(1/2 : ℚ) * 32767⌋ :=
  c5_thm.1 (1/2) (by norm_num)

/-! ### Claim C4 -/

/-- C4 counterexample: on an empty decoded sample buffer, `ComputeSNR`
returns an error (feature_extraction.go:73-76), not the all-zero output
the claim describes. -/
theorem c4_cex :
    computeSNR (fun _ => 0) (fun _ => 0) (fun _ => 0) 0 1 (1/100) false =
      Except.error "audio file contains no samples" := rfl

/-- C4 (amended): for every input that decodes to an empty sample
buffer, `ComputeSNR` fails with the "contains no samples" error instead
of returning an all-zero output. -/
theorem c4_thm (sqrtF log10F : ℚ → ℚ) (samples : ℕ → ℤ) (channels : ℕ)
    (nu : ℚ) (b : Bool) :
    computeSNR sqrtF log10F samples 0 channels nu b =
      Except.error "audio file contains no samples" := rfl

/-! ### Claim C8 -/

/-- C8: whenever the collected noise population is empty — no sample
satisfies the noise-classification predicate of the selected strategy —
`ComputeSNR` succeeds and reports `noisePower = noiseRMS = 1` exactly,
the fixed absolute floor of feature_extraction.go:151-156. -/
theorem c8_thm (sqrtF log10F : ℚ → ℚ) (samples : ℕ → ℤ) (n channels : ℕ)
    (nu : ℚ) (b : Bool) (hn : ¬(n = 0))
    (hempty : noiseSamplesOf samples n channels
      (thresholdValue (if nu = 0 then 1/100 else nu)) b = []) :
    computeSNR sqrtF log10F samples n channels nu b =
      Except.ok (computeSNRCore sqrtF log10F samples n channels
        (if nu = 0 then 1/100 else nu) b)
    ∧ (computeSNRCore sqrtF log10F samples n channels
        (if nu = 0 then 1/100 else nu) b).noisePower = 1
    ∧ (computeSNRCore sqrtF log10F samples n channels
        (if nu = 0 then 1/100 else nu) b).noiseRMS = 1 := by
  refine ⟨?_, ?_, ?_⟩
  · simp only [computeSNR, if_neg hn]
  · simp only [computeSNRCore, hempty, List.length_nil]
    norm_num
  · simp only [computeSNRCore, hempty, List.length_nil]
    norm_num

/-- Witness for C8: a one-sample buffer of amplitude 20000 with the
default threshold has an empty noise population in sample mode. -/
theorem c8_w :
    (computeSNRCore (fun _ => 0) (fun _ => 0) (fun _ => 20000) 1 1
        (if (1/100 : ℚ) = 0 then 1/100 else 1/100) false).noisePower = 1
    ∧ (computeSNRCore (fun _ => 0) (fun _ => 0) (fun _ => 20000) 1 1
        (if (1/100 : ℚ) = 0 then 1/100 else 1/100) false).noiseRMS = 1 :=
  (c8_thm (fun _ => 0) (fun _ => 0) (fun _ => 20000) 1 1 (1/100) false
    (by decide)
    (by rw [if_neg tau_default_ne, thresholdValue_eval]; decide)).2

/-! ### Claim C7 -/

/-- C7: when the boundary search returns the full-buffer range,
`TrimSilence` takes the no-op branch of audio_activities.go:138-155: no
output file is written, nothing is removed, and the result carries the
hash of the original bytes with `wasTrimmed = false` and `noOp = true`. -/
theorem c7_thm (sha : List ℕ → List ℕ) (encode : List ℤ → List ℕ)
    (origBytes : List ℕ) (samples : ℕ → ℤ) (n channels sampleRate : ℕ)
    (st md : ℚ) (outputPath newAssetID : String)
    (h : findNonSilentRange samples n channels (if st = 0 then 1/100 else st)
        sampleRate (if md = 0 then 1/10 else md) = (0, n)) :
    trimSilence sha encode origBytes samples n channels sampleRate st md
        outputPath newAssetID =
      (⟨sha origBytes, false, true, "", none⟩, ⟨false, false⟩) := by
  simp only [trimSilence, h]
  simp

/-- Witness for C7 on the full-range one-sample buffer `[400]`. -/
theorem c7_w :
    trimSilence (fun l => l) (fun _ => []) [7] (fun _ => 400) 1 1 1000
        (1/100) (1/10) "p" "a" =
      (⟨(fun l => l) [7], false, true, "", none⟩, ⟨false, false⟩) :=
  c7_thm (fun l => l) (fun _ => []) [7] (fun _ => 400) 1 1 1000 (1/100) (1/10)
    "p" "a"
    (by
      rw [if_neg tau_default_ne, if_neg dur_default_ne]
      simp only [findNonSilentRange, fnsrStart, fnsrEnd, thresholdValue_eval,
        minSilenceSamples_eval]
      decide)

/-! ### Claim C3 -/

/-- Evaluation of the boundary search on the C3 buffer `[0, 0, 20000, 0]`:
a strict subrange. -/
lemma fnsr_bufC3 : findNonSilentRange bufC3 4 1 (1/100) 1000 (1/10) = (2, 3) := by
  simp only [findNonSilentRange, fnsrStart, fnsrEnd, thresholdValue_eval,
    minSilenceSamples_eval]
  decide

/-- C3 counterexample: with a constant hasher (so the re-encoded strict
subrange hashes identically to the original), `TrimSilence` keeps
`wasTrimmed = true` while setting `noOp = true` — the claim expects
`wasTrimmed = false` in the hash-equal branch, but the source never
resets the field (audio_activities.go:208-226). -/
theorem c3_cex :
    (trimSilence (fun _ => []) (fun _ => []) [] bufC3 4 1 1000 (1/100) (1/10)
        "p" "a").1.wasTrimmed = true
    ∧ (trimSilence (fun _ => []) (fun _ => []) [] bufC3 4 1 1000 (1/100) (1/10)
        "p" "a").1.noOp = true
    ∧ findNonSilentRange bufC3 4 1 (1/100) 1000 (1/10) = (2, 3) := by
  refine ⟨?_, ?_, fnsr_bufC3⟩ <;>
    simp only [trimSilence, if_neg tau_default_ne, if_neg dur_default_ne,
      fnsr_bufC3] <;> decide

/-- C3 (amended): when `TrimSilence` re-encodes a strict subrange and the
trimmed content hash equals the original hash, it deletes the
just-written output file and returns `noOp = true`, an empty
`outputPath`, no new asset, and `contentHash` equal to the original
hash — but `wasTrimmed` remains `true`. -/
theorem c3_thm (sha : List ℕ → List ℕ) (encode : List ℤ → List ℕ)
    (origBytes : List ℕ) (samples : ℕ → ℤ) (n channels sampleRate : ℕ)
    (st md : ℚ) (outputPath newAssetID : String)
    (hr : ¬((findNonSilentRange samples n channels (if st = 0 then 1/100 else st)
          sampleRate (if md = 0 then 1/10 else md)).1 = 0 ∧
        (findNonSilentRange samples n channels (if st = 0 then 1/100 else st)
          sampleRate (if md = 0 then 1/10 else md)).2 = n))
    (hh : sha (encode (trimmedSlice samples
        (findNonSilentRange samples n channels (if st = 0 then 1/100 else st)
          sampleRate (if md = 0 then 1/10 else md)).1
        (findNonSilentRange samples n channels (if st = 0 then 1/100 else st)
          sampleRate (if md = 0 then 1/10 else md)).2)) = sha origBytes) :
    trimSilence sha encode origBytes samples n channels sampleRate st md
        outputPath newAssetID =
      (⟨sha origBytes, true, true, "", none⟩, ⟨true, true⟩) := by
  simp only [trimSilence]
  rw [if_neg hr, if_neg (not_not_intro hh), hh]

/-- Witness for the amended C3 on the buffer `[0, 0, 20000, 0]` with a
constant hasher. -/
theorem c3_w :
    trimSilence (fun _ => []) (fun _ => []) [] bufC3 4 1 1000 (1/100) (1/10)
        "p" "a" =
      (⟨[], true, true, "", none⟩, ⟨true, true⟩) := by
  have h := c3_thm (fun _ => []) (fun _ => []) [] bufC3 4 1 1000 (1/100) (1/10)
    "p" "a"
    (by rw [if_neg tau_default_ne, if_neg dur_default_ne, fnsr_bufC3]; decide)
    rfl
  simpa using h

/-! ### Claims C9 and C10 -/

lemma fnsrStart_lt {samples : ℕ → ℤ} {n channels : ℕ} {tau : ℚ}
    (hc : 0 < channels) (hn : 0 < n) : fnsrStart samples n channels tau < n := by
  rcases startScan_cases samples n channels (thresholdValue tau) hc with h | ⟨t, ht, h⟩ <;>
    rw [fnsrStart, h] <;> omega

lemma fnsrEnd_le {samples : ℕ → ℤ} {n channels : ℕ} {tau : ℚ}
    {sampleRate : ℕ} {dur : ℚ} (hc : 0 < channels) :
    fnsrEnd samples n channels tau sampleRate dur ≤ n := by
  rw [fnsrEnd]
  rcases endScanGo_shape samples n channels (thresholdValue tau)
      (minSilenceSamplesOf sampleRate dur)
      (downIdxs n channels (fnsrStart samples n channels tau)) 0 with h | ⟨i, hi, h⟩
  · rw [h]
  · rw [h]; exact (downIdxs_mem hc hi).2

lemma fnsrStart_lt_fnsrEnd {samples : ℕ → ℤ} {n channels : ℕ} {tau : ℚ}
    {sampleRate : ℕ} {dur : ℚ} (hc : 0 < channels) (hn : 0 < n) :
    fnsrStart samples n channels tau < fnsrEnd samples n channels tau sampleRate dur := by
  rw [fnsrEnd]
  rcases endScanGo_shape samples n channels (thresholdValue tau)
      (minSilenceSamplesOf sampleRate dur)
      (downIdxs n channels (fnsrStart samples n channels tau)) 0 with h | ⟨i, hi, h⟩
  · rw [h]; exact fnsrStart_lt hc hn
  · rw [h]
    have := (downIdxs_mem hc hi).1
    omega

/-- C9: `findNonSilentRange` never produces an empty or inverted range:
an empty input returns `(0, 0)`; for every non-empty input the returned
pair satisfies `start < end ≤ n`; and whenever the backward scan
computes `endIdx ≤ startIdx` the degeneracy guard of
audio_activities.go:297-302 discards both boundaries and returns the
full range. -/
theorem c9_thm (samples : ℕ → ℤ) (n channels : ℕ) (tau : ℚ)
    (sampleRate : ℕ) (dur : ℚ) (hc : 0 < channels) (hn : 0 < n) :
    findNonSilentRange samples 0 channels tau sampleRate dur = (0, 0)
    ∧ (findNonSilentRange samples n channels tau sampleRate dur).1 <
        (findNonSilentRange samples n channels tau sampleRate dur).2
    ∧ (findNonSilentRange samples n channels tau sampleRate dur).2 ≤ n
    ∧ (fnsrEnd samples n channels tau sampleRate dur ≤
          fnsrStart samples n channels tau →
        findNonSilentRange samples n channels tau sampleRate dur = (0, n)) := by
  have hn' : ¬(n = 0) := by omega
  have hse := @fnsrStart_lt_fnsrEnd samples n channels tau sampleRate dur hc hn
  have hle := @fnsrEnd_le samples n channels tau sampleRate dur hc
  refine ⟨by simp [findNonSilentRange], ?_, ?_, ?_⟩
  · rw [findNonSilentRange, if_neg hn', if_neg (by omega)]
    exact hse
  · rw [findNonSilentRange, if_neg hn', if_neg (by omega)]
    exact hle
  · intro h
    rw [findNonSilentRange, if_neg hn', if_pos h]

/-- Witness for C9 on the all-zero five-sample mono buffer. -/
theorem c9_w :
    (findNonSilentRange (fun _ => 0) 5 1 (1/100) 1000 (1/10)).1 <
        (findNonSilentRange (fun _ => 0) 5 1 (1/100) 1000 (1/10)).2
    ∧ (findNonSilentRange (fun _ => 0) 5 1 (1/100) 1000 (1/10)).2 ≤ 5 := by
  have h := c9_thm (fun _ => 0) 5 1 (1/100) 1000 (1/10) (by decide) (by decide)
  exact ⟨h.2.1, h.2.2.1⟩

/-- C10: for a buffer whose length is a positive multiple of the channel
count, both returned boundaries are multiples of `channels`, so the
trimmed slice `samples[start:end]` begins and ends on a frame boundary
and preserves channel interleaving. -/
theorem c10_thm (samples : ℕ → ℤ) (n channels : ℕ) (tau : ℚ)
    (sampleRate : ℕ) (dur : ℚ) (hc : 0 < channels) (hn : 0 < n)
    (hdvd : channels ∣ n) :
    channels ∣ (findNonSilentRange samples n channels tau sampleRate dur).1
    ∧ channels ∣ (findNonSilentRange samples n channels tau sampleRate dur).2 := by
  have hn' : ¬(n = 0) := by omega
  have hs : channels ∣ fnsrStart samples n channels tau := by
    rcases startScan_cases samples n channels (thresholdValue tau) hc with h | ⟨t, _, h⟩ <;>
      rw [fnsrStart, h]
    · exact dvd_zero channels
    · exact dvd_mul_left channels t
  have he : channels ∣ fnsrEnd samples n channels tau sampleRate dur := by
    rw [fnsrEnd]
    rcases endScanGo_shape samples n channels (thresholdValue tau)
        (minSilenceSamplesOf sampleRate dur)
        (downIdxs n channels (fnsrStart samples n channels tau)) 0 with h | ⟨i, hi, h⟩
    · rw [h]; exact hdvd
    · rw [h]; exact downIdxs_dvd hc hdvd hi
  rw [findNonSilentRange, if_neg hn']
  by_cases hg : fnsrEnd samples n channels tau sampleRate dur ≤
      fnsrStart samples n channels tau
  · rw [if_pos hg]
    exact ⟨dvd_zero channels, hdvd⟩
  · rw [if_neg hg]
    exact ⟨hs, he⟩

/-- Witness for C10 on an all-zero stereo buffer of four samples. -/
theorem c10_w :
    2 ∣ (findNonSilentRange (fun _ => 0) 4 2 (1/100) 1000 (1/10)).1
    ∧ 2 ∣ (findNonSilentRange (fun _ => 0) 4 2 (1/100) 1000 (1/10)).2 :=
  c10_thm (fun _ => 0) 4 2 (1/100) 1000 (1/10) (by decide) (by decide) (by decide)

/-! ### Claim C6 -/

lemma startScan_of_all_silent {samples : ℕ → ℤ} {n channels : ℕ} {T : ℤ}
    (hc : 0 < channels)
    (h : ∀ t : ℕ, t * channels + channels < n →
      frameSilent samples n channels T (t * channels) = true) :
    startScan samples n channels T = 0 := by
  rw [startScan, List.find?_eq_none.2, Option.getD_none]
  intro x hx
  obtain ⟨t, ht, rfl⟩ := List.mem_map.1 hx
  rw [List.mem_range, lt_startIters_iff hc] at ht
  simp [h t ht]

lemma startScan_of_first {samples : ℕ → ℤ} {n channels : ℕ} {T : ℤ}
    (hc : 0 < channels) (t : ℕ) (ht : t * channels + channels < n)
    (hns : frameSilent samples n channels T (t * channels) = false)
    (hpre : ∀ u : ℕ, u < t → frameSilent samples n channels T (u * channels) = true) :
    startScan samples n channels T = t * channels := by
  rw [startScan]
  have hlen : t < (((List.range ((n - 1) / channels)).map (· * channels))).length := by
    rw [List.length_map, List.length_range, lt_startIters_iff hc]
    exact ht
  have hget : ∀ u (hu : u < (((List.range ((n - 1) / channels)).map
      (· * channels))).length),
      (((List.range ((n - 1) / channels)).map (· * channels))).get ⟨u, hu⟩ =
        u * channels := by
    intro u hu
    simp [List.get_eq_getElem]
  rw [find?_first _ _ t hlen ?pre ?pj]
  · rw [hget t hlen, Option.getD_some]
  case pre =>
    intro u hu hu'
    rw [hget u hu]
    simp [hpre u hu']
  case pj =>
    rw [hget t hlen]
    simp [hns]

/-- C6 counterexample: on the mono buffer `[0, 400]` (whose only
non-silent frame is the last one) the forward scan never examines the
final frame — its bound is `i < len(samples) - channels` — so the
returned start boundary is `0` even though the first non-silent frame
has index `1`. -/
theorem c6_cex :
    findNonSilentRange bufC6 2 1 (1/100) 1000 (1/10) = (0, 2)
    ∧ frameSilent bufC6 2 1 327 1 = false
    ∧ frameSilent bufC6 2 1 327 0 = true := by
  refine ⟨?_, by decide, by decide⟩
  simp only [findNonSilentRange, fnsrStart, fnsrEnd, thresholdValue_eval,
    minSilenceSamples_eval]
  decide

/-- C6 (amended): the returned start boundary is the offset of the first
non-silent frame among all frames except the last (the forward scan
bound `i < len(samples) - channels` excludes the final frame); if every
frame before the last is silent — in particular when the buffer is
entirely silent or when the only non-silent frame is the final one —
the start boundary is `0`. -/
theorem c6_thm (samples : ℕ → ℤ) (n channels : ℕ) (tau : ℚ)
    (sampleRate : ℕ) (dur : ℚ) (hc : 0 < channels) :
    ((∀ t : ℕ, t * channels + channels < n →
        frameSilent samples n channels (thresholdValue tau) (t * channels) = true) →
      (findNonSilentRange samples n channels tau sampleRate dur).1 = 0)
    ∧ (∀ t : ℕ, t * channels + channels < n →
        frameSilent samples n channels (thresholdValue tau) (t * channels) = false →
        (∀ u : ℕ, u < t →
          frameSilent samples n channels (thresholdValue tau) (u * channels) = true) →
        (findNonSilentRange samples n channels tau sampleRate dur).1 = t * channels) := by
  constructor
  · intro hall
    have hs : fnsrStart samples n channels tau = 0 :=
      startScan_of_all_silent hc hall
    by_cases hn : n = 0
    · simp [findNonSilentRange, hn]
    · rw [findNonSilentRange, if_neg hn]
      by_cases hg : fnsrEnd samples n channels tau sampleRate dur ≤
          fnsrStart samples n channels tau
      · rw [if_pos hg]
      · rw [if_neg hg]
        exact hs
  · intro t ht hns hpre
    have hs : fnsrStart samples n channels tau = t * channels :=
      startScan_of_first hc t ht hns hpre
    have hn : ¬(n = 0) := by omega
    have hn' : 0 < n := by omega
    have hse := @fnsrStart_lt_fnsrEnd samples n channels tau sampleRate dur hc hn'
    rw [findNonSilentRange, if_neg hn, if_neg (by omega)]
    exact hs

/-- Witness for the amended C6 on the mono buffer `[0, 400, 0]`, whose
first non-silent frame is frame 1. -/
theorem c6_w : (findNonSilentRange bufC6W 3 1 (1/100) 1000 (1/10)).1 = 1 := by
  have h := (c6_thm bufC6W 3 1 (1/100) 1000 (1/10) (by decide)).2 1
    (by decide)
    (by rw [thresholdValue_eval]; decide)
    (fun u hu => by
      have hu0 : u = 0 := by omega
      subst hu0
      rw [thresholdValue_eval]
      decide)
  simpa using h

/-! ### Claim C2 -/

lemma ceil_div_eq {mN channels d : ℕ} (hc : 0 < channels)
    (hlo : d * channels < mN) (hhi : mN ≤ (d + 1) * channels) :
    (mN + channels - 1) / channels = d + 1 := by
  have h1 : (d + 1) * channels = d * channels + channels := by
    rw [Nat.add_mul, Nat.one_mul]
  rw [h1] at hhi
  apply Nat.div_eq_of_lt_le
  · rw [h1]; omega
  · rw [Nat.add_mul, h1]; omega

lemma ceil_div_lb {mN channels d : ℕ} (hc : 0 < channels)
    (h : (d + 1) * channels < mN) : d + 2 ≤ (mN + channels - 1) / channels := by
  rw [Nat.le_div_iff_mul_le hc]
  have h1 : (d + 2) * channels = (d + 1) * channels + channels := by
    rw [show d + 2 = (d + 1) + 1 from rfl, Nat.add_mul, Nat.one_mul]
  omega

/-- Behaviour of the backward scan over a run of silent frames: with
every visited frame silent, the scan either exhausts the index list
(when the total visited sample count stays below `minSilenceSamples`)
or stops exactly at the frame whose one-based position is the ceiling
of `minSilenceSamples / channels`. -/
lemma endScan_silent_run (samples : ℕ → ℤ) (n channels : ℕ) (T : ℤ) (mN : ℕ)
    (hc : 0 < channels) :
    ∀ (k : ℕ) (g : ℕ → ℕ) (d : ℕ),
      (∀ t : ℕ, t < k → frameSilent samples n channels T (g t) = true) →
      d * channels < mN →
      endScanGo samples n channels T (mN : ℤ) ((List.range k).map g) d =
        (if (d + k) * channels < mN then n
         else g ((mN + channels - 1) / channels - 1 - d) + channels) := by
  intro k
  induction k with
  | zero =>
    intro g d hsil hd
    rw [List.range_zero, List.map_nil, if_pos (by rwa [Nat.add_zero])]
    rfl
  | succ k ih =>
    intro g d hsil hd
    simp only [List.range_succ_eq_map, List.map_cons, List.map_map]
    have hg0 : frameSilent samples n channels T (g 0) = true :=
      hsil 0 (Nat.succ_pos k)
    rw [endScanGo, hg0]
    rw [if_neg (by simp)]
    by_cases hstop : mN ≤ (d + 1) * channels
    · rw [if_pos (by exact_mod_cast hstop)]
      have hne : ¬((d + (k + 1)) * channels < mN) := by
        have hmono : (d + 1) * channels ≤ (d + (k + 1)) * channels :=
          Nat.mul_le_mul_right channels (by omega)
        omega
      rw [if_neg hne, ceil_div_eq hc hd hstop]
      have h0 : d + 1 - 1 - d = 0 := by omega
      rw [h0]
    · have hstop' : (d + 1) * channels < mN := by omega
      rw [if_neg (by exact_mod_cast not_le.mpr hstop')]
      have hrec := ih (g ∘ Nat.succ) (d + 1)
        (fun t ht => hsil (t + 1) (Nat.succ_lt_succ ht)) hstop'
      rw [hrec]
      have hcond : d + 1 + k = d + (k + 1) := by omega
      rw [hcond]
      have hF := ceil_div_lb hc hstop'
      have hval : (g ∘ Nat.succ) ((mN + channels - 1) / channels - 1 - (d + 1)) =
          g ((mN + channels - 1) / channels - 1 - d) := by
        show g (Nat.succ ((mN + channels - 1) / channels - 1 - (d + 1))) =
          g ((mN + channels - 1) / channels - 1 - d)
        congr 1
        omega
      rw [hval]

/-- C2 (amended): the early-stop condition of the backward scan counts
silent samples, not frames — it stops once
`silenceCount * channels ≥ minSilenceSamples` with
`minSilenceSamples = trunc(sampleRate × minSilenceDuration)` — so over a
run of silent frames the scan runs to completion exactly when
`visitedFrames × channels < minSilenceSamples`, and otherwise stops at
the frame whose one-based position is `⌈minSilenceSamples / channels⌉`;
the number of silent frames needed therefore depends on the channel
count. -/
theorem c2_thm (samples : ℕ → ℤ) (n channels : ℕ) (T : ℤ) (mN s : ℕ)
    (hc : 0 < channels) (hm : 0 < mN)
    (hsil : ∀ i ∈ downIdxs n channels s,
      frameSilent samples n channels T i = true) :
    endScanGo samples n channels T (mN : ℤ) (downIdxs n channels s) 0 =
      (if (downIdxs n channels s).length * channels < mN then n
       else n - channels - ((mN + channels - 1) / channels - 1) * channels
         + channels) := by
  by_cases hle : s + channels ≤ n
  · have hlist : downIdxs n channels s =
        (List.range ((n - channels - s) / channels + 1)).map
          (fun t => n - channels - t * channels) := by
      rw [downIdxs, if_pos hle]
    have hlen : (downIdxs n channels s).length =
        (n - channels - s) / channels + 1 := by
      rw [hlist, List.length_map, List.length_range]
    have hsil' : ∀ t : ℕ, t < (n - channels - s) / channels + 1 →
        frameSilent samples n channels T (n - channels - t * channels) = true := by
      intro t ht
      apply hsil
      rw [hlist]
      exact List.mem_map.2 ⟨t, List.mem_range.2 ht, rfl⟩
    have h := endScan_silent_run samples n channels T mN hc
      ((n - channels - s) / channels + 1)
      (fun t => n - channels - t * channels) 0 hsil' (by simpa using hm)
    rw [hlist, h]
    simp only [List.length_map, List.length_range, Nat.zero_add, Nat.sub_zero]
  · have hlist : downIdxs n channels s = [] := by
      rw [downIdxs, if_neg hle]
    rw [hlist]
    have : ([] : List ℕ).length * channels < mN := by simpa using hm
    rw [if_pos this]
    rfl

/-- C2 counterexample: on the stereo buffer `bufC2` (one loud frame then
55 silent frames, `sampleRate = 1000`, `minSilenceDuration = 0.1`, so
`minSilenceSamples = 100`), the backward scan stops at sample offset 12
with `endIdx = 14` after examining only 50 consecutive silent frames —
the stop frame is itself silent and no non-silent frame has been
reached, so neither of the claimed triggers (non-silent frame, or 100
silent frames) has fired; the stop count `50 = 100 / channels` depends
on the channel count. -/
theorem c2_cex :
    findNonSilentRange bufC2 112 2 (1/100) 1000 (1/10) = (0, 14)
    ∧ frameSilent bufC2 112 2 327 12 = true
    ∧ frameSilent bufC2 112 2 327 0 = false := by
  refine ⟨?_, by decide, by decide⟩
  simp only [findNonSilentRange, fnsrStart, fnsrEnd, thresholdValue_eval,
    minSilenceSamples_eval]
  decide

/-- Witness for the amended C2: an all-zero stereo buffer of 112 samples
with `minSilenceSamples = 100` stops the backward scan at `endIdx = 14`,
after `⌈100 / 2⌉ = 50` silent frames. -/
theorem c2_w :
    endScanGo (fun _ => 0) 112 2 327 ((100 : ℕ) : ℤ) (downIdxs 112 2 0) 0 = 14 := by
  rw [c2_thm (fun _ => 0) 112 2 327 100 0 (by decide) (by decide) (by decide)]
  decide

end DavidAI
